import Mathlib

/-!
Verification development for the linear-arena allocator, the bounded path
builder and the directory-walk list construction of `src/main.cc` and
`src/main.cpp` (three near-identical demo variants; the arena-backed one is
the core).  All `size_t` quantities are modelled as `Nat`: every byte count
in the program is bounded by the virtual reservation handed out by the host,
far below `2^64`, so the two's-complement mask arithmetic of the
`NEXT_MULTIPLE` macro coincides with ordinary rounding on `Nat`.
-/

/-- MAX_STRING_LENGTH (main.cc) / MAX_PATH (main.cpp): capacity in bytes of the
fixed path buffer, 260. -/
def MAX_STRING_LENGTH : Nat := 260

/-- NEXT_MULTIPLE(num, base) = ((num) + ((base) - 1)) & ~((base) - 1).  For a
power-of-two `b` and no `size_t` overflow the mask clears the low bits of
`num + b - 1`, i.e. rounds `num + b - 1` down to a multiple of `b`, which on
`Nat` is `(num + (b - 1)) / b * b`. -/
def nextMultiple (num b : Nat) : Nat := (num + (b - 1)) / b * b

/-- Result of `linear_arena_push_size` / `alloc`.  The C functions return
`NULL` from two distinct branches (the `used >= reserved` guard and a failed
`VirtualAlloc(MEM_COMMIT)`); the spec names these `OutOfReservedSpace` and
`CommitFailed`, so the model tags the branch taken. -/
inductive AllocResult where
  | ok (addr : Nat)
  | outOfReservedSpace
  | commitFailed
deriving DecidableEq

/-- The returned pointer as the C caller sees it: an address on success,
`NULL` (`none`) on either failure. -/
def AllocResult.toPointer : AllocResult → Option Nat
  | AllocResult.ok addr => some addr
  | AllocResult.outOfReservedSpace => none
  | AllocResult.commitFailed => none

/-- struct LinearArena { uint8_t *base; size_t used; size_t committed; size_t reserved; }.
`base` is the abstract start address of the reserved region. -/
structure LinearArena where
  base : Nat
  used : Nat
  committed : Nat
  reserved : Nat
deriving DecidableEq

/-- linear_arena_create (main.cc) / make (main.cpp): reserve `reserve_size`
bytes, nothing committed, nothing used. -/
def linear_arena_create (base reserve_size : Nat) : LinearArena :=
  { base := base, used := 0, committed := 0, reserved := reserve_size }

/-- Common body of `linear_arena_push_size` (main.cc, alignment granularity
`sizeof(void *)` = 8) and `alloc` (main.cpp, granularity `2 * sizeof(void *)`
= 16), with the granularity `g` as a parameter.  `commitOk` models the
success of the host `VirtualAlloc(arena->base, commit_size, MEM_COMMIT, ...)`
call.  Mirrors the source line by line:
```
if (arena->used >= arena->reserved) return NULL;
size_t aligned_size = NEXT_MULTIPLE(size, g);
if (arena->used + aligned_size > arena->committed) {
  size_t page_aligned_size = NEXT_MULTIPLE(aligned_size, 4096);
  size_t commit_size = CLAMP_TOP(arena->committed + MAX(page_aligned_size, 100 * 4096), arena->reserved);
  if (!VirtualAlloc(...)) return NULL;
  arena->committed = commit_size;
}
void *mem = &arena->base[arena->used];
arena->used += aligned_size;
return mem;
```
`CLAMP_TOP(v, m)` is `v > m ? m : v`, i.e. `min v m`; `MAX` is `max`. -/
def pushSizeAligned (g : Nat) (arena : LinearArena) (size : Nat) (commitOk : Bool) :
    AllocResult × LinearArena :=
  if arena.reserved ≤ arena.used then
    (AllocResult.outOfReservedSpace, arena)
  else
    let aligned_size := nextMultiple size g
    if arena.committed < arena.used + aligned_size then
      let page_aligned_size := nextMultiple aligned_size 4096
      let commit_size := min (arena.committed + max page_aligned_size (100 * 4096)) arena.reserved
      if commitOk then
        (AllocResult.ok (arena.base + arena.used),
         { arena with committed := commit_size, used := arena.used + aligned_size })
      else
        (AllocResult.commitFailed, arena)
    else
      (AllocResult.ok (arena.base + arena.used),
       { arena with used := arena.used + aligned_size })

/-- linear_arena_push_size of main.cc: alignment granularity `sizeof(void *)` = 8. -/
def linear_arena_push_size (arena : LinearArena) (size : Nat) (commitOk : Bool) :
    AllocResult × LinearArena :=
  pushSizeAligned 8 arena size commitOk

/-- alloc of main.cpp: alignment granularity `2 * sizeof(void *)` = 16. -/
def alloc (arena : LinearArena) (size : Nat) (commitOk : Bool) :
    AllocResult × LinearArena :=
  pushSizeAligned 16 arena size commitOk

/-- The arena invariant stated by the spec: `used ≤ committed ≤ reserved`. -/
def arenaInv (a : LinearArena) : Prop := a.used ≤ a.committed ∧ a.committed ≤ a.reserved

/-- Run a sequence of allocation requests (size, host-commit outcome) through
the arena, keeping the final state. -/
def runAllocs (g : Nat) (a : LinearArena) : List (Nat × Bool) → LinearArena
  | [] => a
  | r :: rs => runAllocs g (pushSizeAligned g a r.1 r.2).2 rs

/-- Each request's aligned size fits in the reservation remaining at the time
of that request. -/
def fitsAll (g : Nat) (a : LinearArena) : List (Nat × Bool) → Bool
  | [] => true
  | r :: rs =>
    decide (a.used + nextMultiple r.1 g ≤ a.reserved)
      && fitsAll g (pushSizeAligned g a r.1 r.2).2 rs

instance (a : LinearArena) : Decidable (arenaInv a) := by
  unfold arenaInv; infer_instance

lemma nextMultiple_ge (num b : Nat) (hb : 0 < b) : num ≤ nextMultiple num b := by
  unfold nextMultiple
  have h : b * ((num + (b - 1)) / b) + (num + (b - 1)) % b = num + (b - 1) :=
    Nat.div_add_mod _ _
  have h2 : (num + (b - 1)) % b < b := Nat.mod_lt _ hb
  rw [Nat.mul_comm] at h
  omega

lemma nextMultiple_lt (num b : Nat) (hb : 0 < b) : nextMultiple num b < num + b := by
  unfold nextMultiple
  have h := Nat.div_mul_le_self (num + (b - 1)) b
  omega

lemma nextMultiple_dvd (num b : Nat) : b ∣ nextMultiple num b :=
  Dvd.intro_left _ rfl

lemma pushSizeAligned_exhausted (g : Nat) (a : LinearArena) (s : Nat) (ok : Bool)
    (h : a.reserved ≤ a.used) :
    pushSizeAligned g a s ok = (AllocResult.outOfReservedSpace, a) := by
  unfold pushSizeAligned
  rw [if_pos h]

lemma pushSizeAligned_spec (g : Nat) (a : LinearArena) (s : Nat) (ok : Bool) :
    pushSizeAligned g a s ok = (AllocResult.outOfReservedSpace, a) ∨
    pushSizeAligned g a s ok = (AllocResult.commitFailed, a) ∨
    ∃ c, pushSizeAligned g a s ok =
      (AllocResult.ok (a.base + a.used),
       { a with committed := c, used := a.used + nextMultiple s g }) := by
  unfold pushSizeAligned
  split
  · exact Or.inl rfl
  · dsimp only
    split
    · split
      · exact Or.inr (Or.inr ⟨_, rfl⟩)
      · exact Or.inr (Or.inl rfl)
    · exact Or.inr (Or.inr ⟨a.committed, rfl⟩)

lemma pushSizeAligned_base (g : Nat) (a : LinearArena) (s : Nat) (ok : Bool) :
    ((pushSizeAligned g a s ok).2).base = a.base := by
  rcases pushSizeAligned_spec g a s ok with h | h | ⟨c, h⟩ <;> rw [h]

lemma pushSizeAligned_reserved (g : Nat) (a : LinearArena) (s : Nat) (ok : Bool) :
    ((pushSizeAligned g a s ok).2).reserved = a.reserved := by
  rcases pushSizeAligned_spec g a s ok with h | h | ⟨c, h⟩ <;> rw [h]

lemma pushSizeAligned_used_mono (g : Nat) (a : LinearArena) (s : Nat) (ok : Bool) :
    a.used ≤ ((pushSizeAligned g a s ok).2).used := by
  rcases pushSizeAligned_spec g a s ok with h | h | ⟨c, h⟩ <;> rw [h]
  exact Nat.le_add_right _ _

lemma pushSizeAligned_ok_addr (g : Nat) (a : LinearArena) (s : Nat) (ok : Bool) (p : Nat)
    (h : (pushSizeAligned g a s ok).1 = AllocResult.ok p) : p = a.base + a.used := by
  rcases pushSizeAligned_spec g a s ok with h2 | h2 | ⟨c, h2⟩ <;> rw [h2] at h
  · exact absurd h (by simp)
  · exact absurd h (by simp)
  · exact ((AllocResult.ok.injEq _ _).mp h).symm

lemma pushSizeAligned_ok_used (g : Nat) (a : LinearArena) (s : Nat) (ok : Bool) (p : Nat)
    (h : (pushSizeAligned g a s ok).1 = AllocResult.ok p) :
    ((pushSizeAligned g a s ok).2).used = a.used + nextMultiple s g := by
  rcases pushSizeAligned_spec g a s ok with h2 | h2 | ⟨c, h2⟩
  · rw [h2] at h; exact absurd h (by simp)
  · rw [h2] at h; exact absurd h (by simp)
  · rw [h2]

lemma pushSizeAligned_inv (g : Nat) (a : LinearArena) (s : Nat) (ok : Bool)
    (hinv : arenaInv a) (hfit : a.used + nextMultiple s g ≤ a.reserved) :
    arenaInv (pushSizeAligned g a s ok).2 := by
  obtain ⟨h1, h2⟩ := hinv
  unfold pushSizeAligned
  split
  · exact ⟨h1, h2⟩
  · dsimp only
    split
    · split
      · refine ⟨?_, ?_⟩
        · dsimp only
          have hpa : nextMultiple s g ≤ nextMultiple (nextMultiple s g) 4096 :=
            nextMultiple_ge _ 4096 (by norm_num)
          exact le_min (by omega) hfit
        · exact min_le_right _ _
      · exact ⟨h1, h2⟩
    · rename_i hc
      refine ⟨?_, h2⟩
      dsimp only
      omega

lemma runAllocs_inv (g : Nat) (rs : List (Nat × Bool)) (a : LinearArena)
    (hinv : arenaInv a) (hfit : fitsAll g a rs = true) : arenaInv (runAllocs g a rs) := by
  induction rs generalizing a with
  | nil => exact hinv
  | cons r rs ih =>
    unfold fitsAll at hfit
    rw [Bool.and_eq_true, decide_eq_true_eq] at hfit
    exact ih _ (pushSizeAligned_inv g a r.1 r.2 hinv hfit.1) hfit.2

lemma fitsAll_take (g : Nat) (rs : List (Nat × Bool)) (a : LinearArena) (n : Nat)
    (hfit : fitsAll g a rs = true) : fitsAll g a (rs.take n) = true := by
  induction rs generalizing a n with
  | nil => simp [fitsAll]
  | cons r rs ih =>
    cases n with
    | zero => simp [fitsAll]
    | succ n =>
      rw [List.take_succ_cons]
      unfold fitsAll at hfit ⊢
      rw [Bool.and_eq_true] at hfit ⊢
      exact ⟨hfit.1, ih _ _ hfit.2⟩

/-- C1: the claim as stated is false on the code.  From the reachable state
`linear_arena_create 0 4096` (one reserved page, nothing used or committed),
`linear_arena_push_size` with size 8192 and a succeeding host commit returns
success (address base + 0) yet leaves `used = 8192` strictly greater than
`committed = 4096` (the candidate commit size was clamped to `reserved`), so
after a successful allocate neither `committed ≥ used` nor
`used ≤ committed ≤ reserved` holds. -/
theorem arena_clamp_breaks_invariant :
    (linear_arena_push_size (linear_arena_create 0 4096) 8192 true).1 = AllocResult.ok 0 ∧
    (linear_arena_push_size (linear_arena_create 0 4096) 8192 true).2.used = 8192 ∧
    (linear_arena_push_size (linear_arena_create 0 4096) 8192 true).2.committed = 4096 ∧
    ¬ arenaInv (linear_arena_push_size (linear_arena_create 0 4096) 8192 true).2 := by
  refine ⟨?_, ?_, ?_, ?_⟩ <;> decide

/-- C1 (amended): for every arena state satisfying `used ≤ committed ≤
reserved` and every sequence of allocate requests in which each request's
aligned size fits in the reservation remaining at the time of the request,
the invariant `used ≤ committed ≤ reserved` holds after every prefix of the
sequence (in particular `committed ≥ used` after every successful allocate,
including when the candidate commit size was clamped to `reserved`). -/
theorem arena_invariant_when_fits (g : Nat) (a : LinearArena) (rs : List (Nat × Bool))
    (hinv : arenaInv a) (hfit : fitsAll g a rs = true) :
    ∀ n, arenaInv (runAllocs g a (rs.take n)) := by
  intro n
  exact runAllocs_inv g _ a hinv (fitsAll_take g rs a n hfit)

/-- C1 (amended) witness: a concrete run of two allocations inside a
4096-byte reservation keeps the invariant. -/
theorem arena_invariant_when_fits_witness :
    arenaInv (runAllocs 8 (linear_arena_create 0 4096) ([(1, true), (9, true)].take 2)) :=
  arena_invariant_when_fits 8 (linear_arena_create 0 4096) [(1, true), (9, true)]
    (by decide) (by decide) 2

/-- C3: from any arena state with `used ≥ reserved`, both variants of the
allocator fail with `OutOfReservedSpace` for every requested size and every
host-commit outcome, and leave the whole arena state (in particular `used`
and `committed`) unchanged. -/
theorem alloc_exhausted_fails (a : LinearArena) (size : Nat) (ok : Bool)
    (h : a.reserved ≤ a.used) :
    linear_arena_push_size a size ok = (AllocResult.outOfReservedSpace, a) ∧
    alloc a size ok = (AllocResult.outOfReservedSpace, a) :=
  ⟨pushSizeAligned_exhausted 8 a size ok h, pushSizeAligned_exhausted 16 a size ok h⟩

/-- C3 witness: a concrete exhausted arena (used = reserved = 16). -/
theorem alloc_exhausted_fails_witness :
    linear_arena_push_size ⟨0, 16, 16, 16⟩ 8 true
        = (AllocResult.outOfReservedSpace, ⟨0, 16, 16, 16⟩) ∧
    alloc ⟨0, 16, 16, 16⟩ 8 true = (AllocResult.outOfReservedSpace, ⟨0, 16, 16, 16⟩) :=
  alloc_exhausted_fails ⟨0, 16, 16, 16⟩ 8 true (by decide)

lemma runAllocs_append (g : Nat) (a : LinearArena) (l1 l2 : List (Nat × Bool)) :
    runAllocs g a (l1 ++ l2) = runAllocs g (runAllocs g a l1) l2 := by
  induction l1 generalizing a with
  | nil => rfl
  | cons r rs ih => simp only [List.cons_append, runAllocs]; exact ih _

lemma runAllocs_used_mono (g : Nat) (a : LinearArena) (l : List (Nat × Bool)) :
    a.used ≤ (runAllocs g a l).used := by
  induction l generalizing a with
  | nil => exact le_refl _
  | cons r rs ih =>
    exact le_trans (pushSizeAligned_used_mono g a r.1 r.2) (ih _)

lemma runAllocs_base (g : Nat) (a : LinearArena) (l : List (Nat × Bool)) :
    (runAllocs g a l).base = a.base := by
  induction l generalizing a with
  | nil => rfl
  | cons r rs ih => rw [runAllocs, ih, pushSizeAligned_base]

lemma runAllocs_reserved (g : Nat) (a : LinearArena) (l : List (Nat × Bool)) :
    (runAllocs g a l).reserved = a.reserved := by
  induction l generalizing a with
  | nil => rfl
  | cons r rs ih => rw [runAllocs, ih, pushSizeAligned_reserved]

lemma runAllocs_used_dvd (g : Nat) (a : LinearArena) (l : List (Nat × Bool))
    (h : g ∣ a.used) : g ∣ (runAllocs g a l).used := by
  induction l generalizing a with
  | nil => exact h
  | cons r rs ih =>
    refine ih _ ?_
    rcases pushSizeAligned_spec g a r.1 r.2 with h2 | h2 | ⟨c, h2⟩ <;> rw [h2]
    · exact h
    · exact h
    · exact Dvd.dvd.add h (nextMultiple_dvd r.1 g)

/-- C4: over any run of allocation requests from any starting arena state,
(1) `used` is non-decreasing from any prefix to any extension of it;
(2) the address returned by a successful call equals the arena base plus the
value of `used` immediately before that call;
(3) the aligned blocks of two successful calls, the first made after prefix
`l1` and the second made after the longer prefix `l1 ++ [(s1, ok1)] ++ mid`,
are disjoint: the first block ends at or before the start of the second. -/
theorem alloc_monotone_and_disjoint (g : Nat) (a : LinearArena) :
    (∀ l1 l2 : List (Nat × Bool),
      (runAllocs g a l1).used ≤ (runAllocs g a (l1 ++ l2)).used) ∧
    (∀ (l1 : List (Nat × Bool)) (s : Nat) (ok : Bool) (p : Nat),
      (pushSizeAligned g (runAllocs g a l1) s ok).1 = AllocResult.ok p →
      p = a.base + (runAllocs g a l1).used) ∧
    (∀ (l1 mid : List (Nat × Bool)) (s1 s2 : Nat) (ok1 ok2 : Bool) (p1 p2 : Nat),
      (pushSizeAligned g (runAllocs g a l1) s1 ok1).1 = AllocResult.ok p1 →
      (pushSizeAligned g (runAllocs g a (l1 ++ [(s1, ok1)] ++ mid)) s2 ok2).1
          = AllocResult.ok p2 →
      p1 + nextMultiple s1 g ≤ p2) := by
  refine ⟨?_, ?_, ?_⟩
  · intro l1 l2
    rw [runAllocs_append]
    exact runAllocs_used_mono g _ l2
  · intro l1 s ok p h
    rw [pushSizeAligned_ok_addr g _ s ok p h, runAllocs_base]
  · intro l1 mid s1 s2 ok1 ok2 p1 p2 h1 h2
    have hp1 : p1 = a.base + (runAllocs g a l1).used := by
      rw [pushSizeAligned_ok_addr g _ s1 ok1 p1 h1, runAllocs_base]
    have hp2 : p2 = a.base + (runAllocs g a (l1 ++ [(s1, ok1)] ++ mid)).used := by
      rw [pushSizeAligned_ok_addr g _ s2 ok2 p2 h2, runAllocs_base]
    have hstep : (runAllocs g a (l1 ++ [(s1, ok1)])).used
        = (runAllocs g a l1).used + nextMultiple s1 g := by
      rw [runAllocs_append]
      exact pushSizeAligned_ok_used g _ s1 ok1 p1 h1
    have hmono : (runAllocs g a (l1 ++ [(s1, ok1)])).used
        ≤ (runAllocs g a (l1 ++ [(s1, ok1)] ++ mid)).used := by
      rw [runAllocs_append g a (l1 ++ [(s1, ok1)]) mid]
      exact runAllocs_used_mono g _ mid
    omega

/-- C4 witness: a concrete run inside a 4096-byte reservation; the first call
(size 1 after the empty prefix) returns address 0 and the next call (size 9)
returns address 8, so the blocks [0, 8) and [8, 24) are disjoint. -/
theorem alloc_monotone_and_disjoint_witness :
    (runAllocs 8 (linear_arena_create 0 4096) []).used
        ≤ (runAllocs 8 (linear_arena_create 0 4096) ([] ++ [(1, true)])).used ∧
    (0 : Nat) = 0 + (runAllocs 8 (linear_arena_create 0 4096) []).used ∧
    0 + nextMultiple 1 8 ≤ 8 := by
  obtain ⟨hm, haddr, hdisj⟩ := alloc_monotone_and_disjoint 8 (linear_arena_create 0 4096)
  refine ⟨hm [] [(1, true)], haddr [] 1 true 0 (by decide), ?_⟩
  exact hdisj [] [] 1 9 true true 0 8 (by decide) (by decide)

/-- C5: for any allocate call that passes the exhaustion guard
(`used < reserved`) and overruns the committed prefix
(`used + alignedSize > committed`): if the host commit succeeds, the new
`committed` equals
`min (committed + max (alignedSize rounded up to a 4096-page multiple) (100 * 4096)) reserved`;
if the host commit fails, the call fails with `CommitFailed` and the whole
arena state (in particular `used`) is unchanged. -/
theorem alloc_commit_growth (g : Nat) (a : LinearArena) (size : Nat) (ok : Bool)
    (h1 : a.used < a.reserved) (h2 : a.committed < a.used + nextMultiple size g) :
    (ok = true →
      ((pushSizeAligned g a size ok).2).committed
        = min (a.committed + max (nextMultiple (nextMultiple size g) 4096) (100 * 4096))
            a.reserved) ∧
    (ok = false → pushSizeAligned g a size ok = (AllocResult.commitFailed, a)) := by
  constructor
  · intro hok
    subst hok
    unfold pushSizeAligned
    rw [if_neg (by omega)]
    dsimp only
    rw [if_pos h2, if_pos rfl]
  · intro hok
    subst hok
    unfold pushSizeAligned
    rw [if_neg (by omega)]
    dsimp only
    rw [if_pos h2, if_neg (by simp)]

/-- C5 witness: from the fresh arena `linear_arena_create 0 409600000` a call
of size 1 grows `committed` to `min (0 + max 4096 409600) 409600000 = 409600`,
and with a failing host commit the call fails leaving the arena unchanged. -/
theorem alloc_commit_growth_witness :
    ((pushSizeAligned 8 (linear_arena_create 0 409600000) 1 true).2).committed
        = min (0 + max (nextMultiple (nextMultiple 1 8) 4096) (100 * 4096)) 409600000 ∧
    pushSizeAligned 8 (linear_arena_create 0 409600000) 1 false
        = (AllocResult.commitFailed, linear_arena_create 0 409600000) := by
  constructor
  · exact (alloc_commit_growth 8 (linear_arena_create 0 409600000) 1 true
      (by decide) (by decide)).1 rfl
  · exact (alloc_commit_growth 8 (linear_arena_create 0 409600000) 1 false
      (by decide) (by decide)).2 rfl

/-- C6: with the granularity `g` of either variant (8 = `sizeof(void *)` in
main.cc, 16 = `2 * sizeof(void *)` in main.cpp) and any size > 0:
(1) a successful call consumes exactly `nextMultiple size g` bytes of `used`;
(2) `nextMultiple size g` is precisely `size` rounded up to the next multiple
of `g` (a multiple of `g`, at least `size`, and less than `size + g`);
(3) from any arena reachable from `linear_arena_create` by a run of
allocations, a successful call returns an address whose offset from `base`
is a multiple of `g`. -/
theorem alloc_alignment (g size : Nat) (hg : g = 8 ∨ g = 16) (_hs : 0 < size) :
    (∀ (a : LinearArena) (ok : Bool) (p : Nat),
      (pushSizeAligned g a size ok).1 = AllocResult.ok p →
      ((pushSizeAligned g a size ok).2).used = a.used + nextMultiple size g) ∧
    (g ∣ nextMultiple size g ∧ size ≤ nextMultiple size g ∧ nextMultiple size g < size + g) ∧
    (∀ (b r : Nat) (rs : List (Nat × Bool)) (ok : Bool) (p : Nat),
      (pushSizeAligned g (runAllocs g (linear_arena_create b r) rs) size ok).1
          = AllocResult.ok p →
      g ∣ (p - b)) := by
  have hgpos : 0 < g := by rcases hg with h | h <;> omega
  refine ⟨?_, ⟨nextMultiple_dvd size g, nextMultiple_ge size g hgpos,
    nextMultiple_lt size g hgpos⟩, ?_⟩
  · intro a ok p h
    exact pushSizeAligned_ok_used g a size ok p h
  · intro b r rs ok p h
    have haddr := pushSizeAligned_ok_addr g _ size ok p h
    rw [runAllocs_base] at haddr
    have hdvd : g ∣ (runAllocs g (linear_arena_create b r) rs).used :=
      runAllocs_used_dvd g _ rs (dvd_zero g)
    have hbase : (linear_arena_create b r).base = b := rfl
    rw [haddr, hbase, Nat.add_sub_cancel_left]
    exact hdvd

/-- C6 witness: in the main.cc variant (g = 8) a request of size 9 consumes
16 bytes, 16 is 9 rounded up to the next multiple of 8, and the address
returned after one prior allocation is offset 8 from base, a multiple of 8. -/
theorem alloc_alignment_witness :
    ((pushSizeAligned 8 (linear_arena_create 0 4096) 9 true).2).used
        = (linear_arena_create 0 4096).used + nextMultiple 9 8 ∧
    (8 ∣ nextMultiple 9 8 ∧ 9 ≤ nextMultiple 9 8 ∧ nextMultiple 9 8 < 9 + 8) ∧
    8 ∣ (8 - 0) := by
  obtain ⟨h1, h2, h3⟩ := alloc_alignment 8 9 (Or.inl rfl) (by decide)
  exact ⟨h1 (linear_arena_create 0 4096) true 0 (by decide), h2,
    h3 0 4096 [(1, true)] true 8 (by decide)⟩

/-- C7: from any arena state satisfying the invariant with `used < reserved`,
a request whose aligned size is exactly `reserved - used` succeeds (host
commit succeeding) and leaves `used = reserved`; every subsequent call, of
any size and any host-commit outcome, fails with `OutOfReservedSpace` and
leaves the state unchanged. -/
theorem alloc_boundary_exact_fit (g : Nat) (a : LinearArena) (size : Nat)
    (hinv : arenaInv a) (hlt : a.used < a.reserved)
    (hexact : nextMultiple size g = a.reserved - a.used) :
    (pushSizeAligned g a size true).1 = AllocResult.ok (a.base + a.used) ∧
    ((pushSizeAligned g a size true).2).used = a.reserved ∧
    (∀ (size2 : Nat) (ok2 : Bool),
      pushSizeAligned g ((pushSizeAligned g a size true).2) size2 ok2
        = (AllocResult.outOfReservedSpace, (pushSizeAligned g a size true).2)) := by
  obtain ⟨h1, h2⟩ := hinv
  have hmain : (pushSizeAligned g a size true).1 = AllocResult.ok (a.base + a.used) ∧
      ((pushSizeAligned g a size true).2).used = a.reserved := by
    unfold pushSizeAligned
    rw [if_neg (by omega)]
    dsimp only
    split
    · rw [if_pos rfl]
      exact ⟨rfl, by dsimp only; omega⟩
    · exact ⟨rfl, by dsimp only; omega⟩
  refine ⟨hmain.1, hmain.2, ?_⟩
  intro size2 ok2
  have hres : ((pushSizeAligned g a size true).2).reserved = a.reserved :=
    pushSizeAligned_reserved g a size true
  exact pushSizeAligned_exhausted g _ size2 ok2 (by rw [hres, hmain.2])

/-- C7 witness: arena `⟨0, 8, 16, 24⟩` (used 8, committed 16, reserved 24):
a size-9 request has aligned size 16 = reserved - used; it succeeds at
address 8, fills the arena, and the next call fails. -/
theorem alloc_boundary_exact_fit_witness :
    (pushSizeAligned 8 ⟨0, 8, 16, 24⟩ 9 true).1 = AllocResult.ok (0 + 8) ∧
    ((pushSizeAligned 8 ⟨0, 8, 16, 24⟩ 9 true).2).used = 24 ∧
    pushSizeAligned 8 ((pushSizeAligned 8 ⟨0, 8, 16, 24⟩ 9 true).2) 8 true
      = (AllocResult.outOfReservedSpace, (pushSizeAligned 8 ⟨0, 8, 16, 24⟩ 9 true).2) := by
  obtain ⟨w1, w2, w3⟩ := alloc_boundary_exact_fit 8 ⟨0, 8, 16, 24⟩ 9
    (by decide) (by decide) (by decide)
  exact ⟨w1, w2, w3 8 true⟩

/-- struct StringBuilder (main.cc) / PathBuilder (main.cpp):
`char buffer[260]; size_t used;`.  The buffer is modelled as a total map from
byte index to byte; indices `≥ MAX_STRING_LENGTH` lie outside the 260-byte C
array, so a write there is an out-of-bounds write of the C program. -/
structure StringBuilder where
  buffer : Nat → Char
  used : Nat

/-- reset_path (main.cpp) / the inline `pattern.used = 0` (main.cc): set the
length to 0, leaving the buffer bytes as they are. -/
def reset_path (b : StringBuilder) : StringBuilder := { b with used := 0 }

/-- string_builder_push (main.cc) / push_path (main.cpp).  Mirrors the source:
```
size_t length = strlen(str);
if (length + 1 >= MAX_STRING_LENGTH) { fprintf(...); exit(EXIT_FAILURE); }
memcpy(builder->buffer + builder->used, str, length);
builder->buffer[builder->used + length] = 0;
builder->used += length;
```
`none` models the process-fatal `exit` (PathTooLong).  Note the guard tests
only `length + 1 >= 260`, not `used + length + 1 >= 260`: the current length
`used` is absent from the guard. -/
def string_builder_push (b : StringBuilder) (s : List Char) : Option StringBuilder :=
  if MAX_STRING_LENGTH ≤ s.length + 1 then none
  else some
    { buffer := fun i =>
        if h : b.used ≤ i ∧ i < b.used + s.length then s.get ⟨i - b.used, by omega⟩
        else if i = b.used + s.length then Char.ofNat 0
        else b.buffer i,
      used := b.used + s.length }

/-- push_path of main.cpp is byte-for-byte the same function as
string_builder_push of main.cc (MAX_PATH = MAX_STRING_LENGTH = 260). -/
def push_path (b : StringBuilder) (s : List Char) : Option StringBuilder :=
  string_builder_push b s

/-- The highest buffer index the push writes: bytes `used .. used+len-1` via
`memcpy`, then the terminator at `used + len`. -/
def push_write_high (b : StringBuilder) (s : List Char) : Nat := b.used + s.length

/-- Push a list of strings in order, failing if any push fails. -/
def pushAll (b : StringBuilder) : List (List Char) → Option StringBuilder
  | [] => some b
  | s :: ss =>
    match string_builder_push b s with
    | none => none
    | some b2 => pushAll b2 ss


set_option maxRecDepth 8000 in
/-- C2: the claim is the intent, the code is a slip.  The guard of
`string_builder_push` / `push_path` omits the current length: from the
reachable state `used = 255` (obtained by pushing a 255-byte string after a
reset, shown first), pushing a 10-byte string violates the claimed
precondition `used + length + 1 < 260`, yet the push succeeds (no
PathTooLong), sets `used = 265`, touches buffer index 265 ≥ 260 — past the
260-byte array — and stores a pushed byte at out-of-bounds index 260. -/
theorem push_overflow_guard_misses_used :
    (string_builder_push (reset_path ⟨fun _ => 'x', 3⟩) (List.replicate 255 'y')).map
        StringBuilder.used = some 255 ∧
    ¬ (255 + (List.replicate 10 'a').length + 1 < MAX_STRING_LENGTH) ∧
    (string_builder_push ⟨fun _ => 'x', 255⟩ (List.replicate 10 'a')).isSome = true ∧
    (string_builder_push ⟨fun _ => 'x', 255⟩ (List.replicate 10 'a')).map
        StringBuilder.used = some 265 ∧
    MAX_STRING_LENGTH ≤ push_write_high ⟨fun _ => 'x', 255⟩ (List.replicate 10 'a') ∧
    (string_builder_push ⟨fun _ => 'x', 255⟩ (List.replicate 10 'a')).map
        (fun sb => sb.buffer 260) = some 'a' := by
  refine ⟨?_, ?_, ?_, ?_, ?_, ?_⟩ <;> decide

lemma pushAll_concat (ss : List (List Char)) (b : StringBuilder)
    (hlen : b.used + ss.flatten.length + 1 < MAX_STRING_LENGTH) :
    ∃ b1, pushAll b ss = some b1 ∧ b1.used = b.used + ss.flatten.length ∧
      (∀ i, i < b.used → b1.buffer i = b.buffer i) ∧
      (∀ i (hi : i < ss.flatten.length), b1.buffer (b.used + i) = ss.flatten[i]) ∧
      (ss = [] → b1 = b) ∧
      (ss ≠ [] → b1.buffer (b.used + ss.flatten.length) = Char.ofNat 0) := by
  have hM : MAX_STRING_LENGTH = 260 := rfl
  induction ss generalizing b with
  | nil =>
    refine ⟨b, rfl, by simp, fun i _ => rfl, ?_, fun _ => rfl, by simp⟩
    intro i hi
    simp at hi
  | cons s ss ih =>
    have hflat : (s :: ss).flatten = s ++ ss.flatten := by simp
    rw [hM] at hlen
    rw [hflat, List.length_append] at hlen
    have hslen : ¬ (MAX_STRING_LENGTH ≤ s.length + 1) := by rw [hM]; omega
    set b2 : StringBuilder :=
      { buffer := fun i =>
          if h : b.used ≤ i ∧ i < b.used + s.length then s.get ⟨i - b.used, by omega⟩
          else if i = b.used + s.length then Char.ofNat 0
          else b.buffer i,
        used := b.used + s.length } with hb2
    have hpush : string_builder_push b s = some b2 := by
      unfold string_builder_push
      rw [if_neg hslen]
    have hb2used : b2.used = b.used + s.length := rfl
    have hlen2 : b2.used + ss.flatten.length + 1 < MAX_STRING_LENGTH := by
      rw [hM, hb2used]; omega
    obtain ⟨b1, hrun, hused, hpres, hcontent, hnil, hterm⟩ := ih b2 hlen2
    refine ⟨b1, ?_, ?_, ?_, ?_, ?_, ?_⟩
    · show pushAll b (s :: ss) = some b1
      unfold pushAll
      rw [hpush]
      exact hrun
    · rw [hused, hb2used, hflat, List.length_append]
      omega
    · intro i hi
      rw [hpres i (by omega)]
      simp only [hb2]
      rw [dif_neg (by omega), if_neg (by omega)]
    · intro i hi
      simp only [hflat]
      by_cases hcase : i < s.length
      · rw [hpres (b.used + i) (by omega)]
        simp only [hb2]
        rw [dif_pos ⟨Nat.le_add_right _ _, by omega⟩]
        simp only [List.get_eq_getElem, Nat.add_sub_cancel_left]
        exact (List.getElem_append_left hcase).symm
      · push_neg at hcase
        have hi' : i < (s :: ss).flatten.length := hi
        have hilen : i < s.length + ss.flatten.length := by
          rw [hflat, List.length_append] at hi'
          exact hi'
        have hj : i - s.length < ss.flatten.length := by omega
        have hc := hcontent (i - s.length) hj
        have hidx : b2.used + (i - s.length) = b.used + i := by rw [hb2used]; omega
        rw [hidx] at hc
        rw [hc]
        exact (List.getElem_append_right hcase).symm
    · intro h
      exact absurd h (by simp)
    · intro _
      rcases eq_or_ne ss [] with h | h
      · subst h
        rw [hnil rfl]
        simp only [hb2, hflat]
        simp
      · have ht := hterm h
        have hidx : b2.used + ss.flatten.length = b.used + (s :: ss).flatten.length := by
          rw [hb2used, hflat, List.length_append]
          omega
        rw [hidx] at ht
        exact ht

/-- C9: after a reset (`used = 0`), pushing any non-empty sequence of strings
whose total length leaves room for the terminator succeeds, and afterwards
`buffer[0 .. used)` holds the concatenation of all pushed strings, with
`buffer[used]` a null terminator.  (The room hypothesis confines the model to
the in-bounds regime of the 260-byte C array; out-of-bounds pushes are the
subject of the guard flaw treated separately.) -/
theorem builder_concat (b0 : StringBuilder) (ss : List (List Char))
    (h0 : b0.used = 0) (hne : ss ≠ [])
    (hlen : ss.flatten.length + 1 < MAX_STRING_LENGTH) :
    ∃ b1, pushAll b0 ss = some b1 ∧ b1.used = ss.flatten.length ∧
      (∀ i (hi : i < ss.flatten.length), b1.buffer i = ss.flatten[i]) ∧
      b1.buffer ss.flatten.length = Char.ofNat 0 := by
  obtain ⟨b1, hrun, hused, hpres, hcontent, hnil, hterm⟩ :=
    pushAll_concat ss b0 (by rw [h0, Nat.zero_add]; exact hlen)
  refine ⟨b1, hrun, by omega, ?_, ?_⟩
  · intro i hi
    have hc := hcontent i hi
    rwa [h0, Nat.zero_add] at hc
  · have ht := hterm hne
    rwa [h0, Nat.zero_add] at ht

/-- C9 witness: the spec's own example: after a reset, pushing "ab" then "cd"
yields used = 4 and buffer contents a, b, c, d, NUL. -/
theorem builder_concat_witness :
    ∃ b1, pushAll (reset_path ⟨fun _ => 'z', 7⟩) [['a', 'b'], ['c', 'd']] = some b1 ∧
      b1.used = 4 ∧ b1.buffer 0 = 'a' ∧ b1.buffer 1 = 'b' ∧ b1.buffer 2 = 'c' ∧
      b1.buffer 3 = 'd' ∧ b1.buffer 4 = Char.ofNat 0 := by
  obtain ⟨b1, hrun, hused, hcontent, hterm⟩ :=
    builder_concat (reset_path ⟨fun _ => 'z', 7⟩) [['a', 'b'], ['c', 'd']] rfl
      (by simp) (by decide)
  exact ⟨b1, hrun, hused, hcontent 0 (by decide), hcontent 1 (by decide),
    hcontent 2 (by decide), hcontent 3 (by decide), hterm⟩

/-- A directory entry as the host enumeration yields it: a name, the
FILE_ATTRIBUTE_DIRECTORY flag, and (for directories) the entries its own
enumeration would yield, in host order.  The `.` and `..` pseudo-entries may
appear anywhere in a child list, as they do on the host. -/
inductive FsTree where
  | node (name : List Char) (isDir : Bool) (children : List FsTree)

/-- The test `strcmp(cFileName, ".") == 0 || strcmp(cFileName, "..") == 0`
that makes the walk skip the self and parent pseudo-entries. -/
def isPseudo (n : List Char) : Bool := n == ['.'] || n == ['.', '.']

/-!
The list construction of `get_file_list_custom` (identical in
`get_file_list_nostl` / `get_file_list_stl`), modelled at the level of the
paths carried by the linked-list nodes: `acc` is the list so far in link
order (the sentinel head included), and each discovered entry appends
`root ++ "\" ++ name` at the tail — the source finds the tail by walking
`next` from the node it was handed, which is the global tail of the single
chain — then, for a directory, recurses into it before continuing with the
siblings.  `walkOne` handles one host-yielded entry, `walkList` drains one
directory's enumeration in order.  (Path assembly through the fixed 260-byte
builder is modelled at the string level; the builder's capacity guard is
treated separately.)
-/
mutual
/-- Process one host-yielded entry of the walk. -/
def walkOne (root : List Char) (acc : List (List Char)) : FsTree → List (List Char)
  | FsTree.node n d cs =>
    if isPseudo n then acc
    else
      let path := root ++ '\\' :: n
      if d then walkList path (acc ++ [path]) cs else acc ++ [path]
/-- Drain one directory's enumeration in host order. -/
def walkList (root : List Char) (acc : List (List Char)) :
    List FsTree → List (List Char)
  | [] => acc
  | e :: es => walkList root (walkOne root acc e) es
end

/-!
Modelled from the spec's words, for comparison with the source-derived walk:
the pre-order of discovery — visit an entry (its full path), then its entire
subtree, then the next sibling — with `.` and `..` skipped.
-/
mutual
/-- Pre-order paths of one entry: the entry, then its whole subtree. -/
def preOne (root : List Char) : FsTree → List (List Char)
  | FsTree.node n d cs =>
    if isPseudo n then []
    else
      let path := root ++ '\\' :: n
      path :: (if d then preList path cs else [])
/-- Pre-order paths of a sibling list, in order. -/
def preList (root : List Char) : List FsTree → List (List Char)
  | [] => []
  | e :: es => preOne root e ++ preList root es
end

lemma walk_pre_aux (N : Nat) :
    (∀ e : FsTree, sizeOf e < N → ∀ root acc,
      walkOne root acc e = acc ++ preOne root e) ∧
    (∀ es : List FsTree, sizeOf es < N → ∀ root acc,
      walkList root acc es = acc ++ preList root es) := by
  induction N with
  | zero =>
    exact ⟨fun e he => absurd he (Nat.not_lt_zero _),
      fun es hes => absurd hes (Nat.not_lt_zero _)⟩
  | succ N ih =>
    obtain ⟨ih1, ih2⟩ := ih
    constructor
    · intro e he root acc
      cases e with
      | node n d cs =>
        have hcs : sizeOf cs < N := by
          simp only [FsTree.node.sizeOf_spec] at he
          omega
        simp only [walkOne, preOne]
        by_cases hp : isPseudo n = true
        · rw [if_pos hp, if_pos hp, List.append_nil]
        · rw [if_neg hp, if_neg hp]
          by_cases hd : d = true
          · rw [if_pos hd, if_pos hd, ih2 cs hcs]
            simp
          · rw [if_neg hd, if_neg hd]
    · intro es hes root acc
      cases es with
      | nil => simp only [walkList, preList, List.append_nil]
      | cons e es =>
        have he : sizeOf e < N := by
          simp only [List.cons.sizeOf_spec] at hes
          omega
        have hes2 : sizeOf es < N := by
          simp only [List.cons.sizeOf_spec] at hes
          omega
        simp only [walkList, preList]
        rw [ih2 es hes2, ih1 e he, List.append_assoc]

/-- C8: (1) for every host enumeration, the walk equals `acc` (the list so
far) extended at the tail by the spec's pre-order of discovery — each path is
appended at the current tail and a directory's subtree is emitted before its
next sibling; (2) the spec's concrete instance: root entries a (file) then
b (directory containing c), starting from the sentinel list [root], yield
[root, root\a, root\b, root\b\c] in link order. -/
theorem walk_preorder :
    (∀ (root : List Char) (acc : List (List Char)) (es : List FsTree),
      walkList root acc es = acc ++ preList root es) ∧
    (walkList ['r', 'o', 'o', 't'] [['r', 'o', 'o', 't']]
        [FsTree.node ['a'] false [],
         FsTree.node ['b'] true [FsTree.node ['c'] false []]]
      = [['r', 'o', 'o', 't'],
         ['r', 'o', 'o', 't', '\\', 'a'],
         ['r', 'o', 'o', 't', '\\', 'b'],
         ['r', 'o', 'o', 't', '\\', 'b', '\\', 'c']]) := by
  constructor
  · intro root acc es
    exact (walk_pre_aux (sizeOf es + 1)).2 es (Nat.lt_succ_self _) root acc
  · decide

/-- sizeof(FileName) on 64-bit Windows: size_t length (8) + FileName *next
(8) + char name[1] padded to the 8-byte struct alignment (8) = 24 bytes. -/
def FileName_size : Nat := 24

/-!
The arena-backed walk of `get_file_list_custom` (main.cc) with the
allocation threaded through: for each kept entry it calls
`linear_arena_push_size(arena, sizeof(FileName) + pattern.used, ...)` and
then immediately writes `file->length`, `file->next` and the path bytes
through the returned pointer — the source has no check between the call and
the stores, so the model records, per entry, the pointer written through
(`none` is the C `NULL` of a failed allocation).  `st` is the arena paired
with the write-target trace; `ok` is the host-commit outcome used for the
calls.
-/
mutual
/-- Process one entry: allocate, write through the result, recurse if a
directory. -/
def customOne (root : List Char) (st : LinearArena × List (Option Nat)) (ok : Bool) :
    FsTree → LinearArena × List (Option Nat)
  | FsTree.node n d cs =>
    if isPseudo n then st
    else
      let path := root ++ '\\' :: n
      let res := linear_arena_push_size st.1 (FileName_size + path.length) ok
      let st2 := (res.2, st.2 ++ [AllocResult.toPointer res.1])
      if d then customList path st2 ok cs else st2
/-- Drain one directory's enumeration, threading the arena. -/
def customList (root : List Char) (st : LinearArena × List (Option Nat)) (ok : Bool) :
    List FsTree → LinearArena × List (Option Nat)
  | [] => st
  | e :: es => customList root (customOne root st ok e) ok es
end

/-!
Number of entries the walk processes: non-pseudo entries, recursively
through directories.
-/
mutual
/-- Entries processed under one entry. -/
def countOne : FsTree → Nat
  | FsTree.node n d cs =>
    if isPseudo n then 0 else 1 + (if d then countList cs else 0)
/-- Entries processed in a sibling list. -/
def countList : List FsTree → Nat
  | [] => 0
  | e :: es => countOne e + countList es
end

lemma custom_count_aux (N : Nat) :
    (∀ e : FsTree, sizeOf e < N → ∀ root st ok,
      ((customOne root st ok e).2).length = st.2.length + countOne e) ∧
    (∀ es : List FsTree, sizeOf es < N → ∀ root st ok,
      ((customList root st ok es).2).length = st.2.length + countList es) := by
  induction N with
  | zero =>
    exact ⟨fun e he => absurd he (Nat.not_lt_zero _),
      fun es hes => absurd hes (Nat.not_lt_zero _)⟩
  | succ N ih =>
    obtain ⟨ih1, ih2⟩ := ih
    constructor
    · intro e he root st ok
      cases e with
      | node n d cs =>
        have hcs : sizeOf cs < N := by
          simp only [FsTree.node.sizeOf_spec] at he
          omega
        simp only [customOne, countOne]
        by_cases hp : isPseudo n = true
        · rw [if_pos hp, if_pos hp, Nat.add_zero]
        · rw [if_neg hp, if_neg hp]
          by_cases hd : d = true
          · rw [if_pos hd, if_pos hd, ih2 cs hcs]
            simp only [List.length_append, List.length_singleton]
            omega
          · rw [if_neg hd, if_neg hd]
            simp only [List.length_append, List.length_singleton]
    · intro es hes root st ok
      cases es with
      | nil => simp only [customList, countList, Nat.add_zero]
      | cons e es =>
        have he : sizeOf e < N := by
          simp only [List.cons.sizeOf_spec] at hes
          omega
        have hes2 : sizeOf es < N := by
          simp only [List.cons.sizeOf_spec] at hes
          omega
        simp only [customList, countList]
        rw [ih2 es hes2, ih1 e he]
        omega

/-- C10: the consumer never branches on the allocator's failure signal:
(1) for every arena state, host-commit outcome and enumeration, the walk
performs exactly one node write per processed entry — the write-target trace
grows by `countList es` regardless of whether any allocation failed; (2) in
particular, on an exhausted arena (`linear_arena_create 0 0`, where every
allocate returns the failure signal) the walk still performs its write, and
the pointer written through is the failure signal `none` (the C NULL). -/
theorem walk_writes_unguarded :
    (∀ (root : List Char) (st : LinearArena × List (Option Nat)) (ok : Bool)
      (es : List FsTree),
      ((customList root st ok es).2).length = st.2.length + countList es) ∧
    ((customList ['.'] (linear_arena_create 0 0, []) true
        [FsTree.node ['a'] false []]).2 = [none]) := by
  constructor
  · intro root st ok es
    exact (custom_count_aux (sizeOf es + 1)).2 es (Nat.lt_succ_self _) root st ok
  · decide
